import Mathlib

/-!
Verification development for the tevm repository (a Rust EVM wrapper built
on revm, with bug instrumentation, call tracing and state forking).

The definitions below are shallow embeddings of the Rust source:
256-bit machine integers are modelled as `Nat` with explicit `% 2 ^ 256`
where the source uses wrapping operations, hash maps are modelled as
functions into `Option` or as association lists, thread-local cells are
modelled by explicit state passing, and fallible code returns
`Except`/`Option`.  External effects (RPC endpoints, caches, keccak256)
are passed in as explicit function arguments.
-/

namespace TEVM

/-! ## 256-bit arithmetic (ruint U256 model) -/

/-- `2 ^ 256`, the modulus of `U256` arithmetic. -/
def W256 : Nat := 2 ^ 256

/-- `U256::MAX`. -/
def U256max : Nat := W256 - 1

/-- Models ruint `a.overflowing_sub(b).0`: wrapping subtraction on `U256`. -/
def wrapping_sub (a b : Nat) : Nat := (a + W256 - b) % W256

/-- Models ruint `a.saturating_add(b)` on `U256`. -/
def saturating_add (a b : Nat) : Nat := min (a + b) U256max

/-! ## Bug inspector: comparison distances (src/instrument/bug_inspector.rs) -/

/-- Distance stored by `BugInspector::step_end` after an `LT` opcode with
captured stack inputs `a` and `b` (bug_inspector.rs lines 262-271). -/
def lt_distance (a b : Nat) : Nat :=
  if b ≤ a then saturating_add (wrapping_sub a b) 1 else wrapping_sub b a

/-- Distance stored by `BugInspector::step_end` after a `GT` opcode with
captured stack inputs `a` and `b` (bug_inspector.rs lines 272-281). -/
def gt_distance (a b : Nat) : Nat :=
  if b ≤ a then wrapping_sub a b else saturating_add (wrapping_sub b a) 1

/-- Heuristics state: the fields touched by the claims under study
(`coverage` deque and `distance`). -/
structure HeuristicsM where
  coverage : List Nat
  distance : Nat
  deriving DecidableEq

/-- `step_end` on `LT`: stores the computed distance into `heuristics.distance`. -/
def step_end_lt (h : HeuristicsM) (a b : Nat) : HeuristicsM :=
  { h with distance := lt_distance a b }

/-- `step_end` on `GT`: stores the computed distance into `heuristics.distance`. -/
def step_end_gt (h : HeuristicsM) (a b : Nat) : HeuristicsM :=
  { h with distance := gt_distance a b }

/-! ## Bug inspector: peephole heuristic (bug_inspector.rs lines 441-460) -/

/-- The threshold computed by
`let mut half = U256::MAX; half.set_bit(31, false);`:
all bits set except bit 31, i.e. `U256::MAX - 2^31`.
(ruint `set_bit` indexes bits from the least significant bit.) -/
def peephole_half : Nat := U256max - 2 ^ 31

/-- The distance stored by the JUMPI peephole heuristic for condition value
`cond` (bug_inspector.rs lines 448-459):
`if cond > half { U256::MAX - cond + 1 } else { cond }`. -/
def peephole_distance (cond : Nat) : Nat :=
  if peephole_half < cond then U256max - cond + 1 else cond

/-- `BugInspector::possibly_if_equal` (bug_inspector.rs lines 48-50):
`step_index < last_index_sub + 10 && step_index > last_index_eq + 10`. -/
def possibly_if_equal (step_index last_index_sub last_index_eq : Nat) : Bool :=
  decide (step_index < last_index_sub + 10) && decide (last_index_eq + 10 < step_index)

/-! ## Bug inspector: add_bug (bug_inspector.rs lines 85-119) -/

/-- The bug kinds distinguished by `add_bug`'s match: `Jumpi`, `Sload`,
`Sstore`, and everything else (collapsed into `unclassified` with a
numeric tag for the remaining `BugType` variants). -/
inductive BugTypeM where
  | jumpi (dest : Nat)
  | sload (key : Nat)
  | sstore (key value : Nat)
  | unclassified (tag : Nat)
  deriving DecidableEq

/-- A recorded bug (src/instrument/bug.rs `Bug`). -/
structure BugM where
  bug_type : BugTypeM
  opcode : Nat
  position : Nat
  address_index : Int
  deriving DecidableEq

/-- `BugInspector::add_bug` restricted to the state it touches:
`bug_data` (a deque of bugs) and `heuristics.coverage` (a deque of jump
targets).  `heuristics_enabled` is `instrument_config.heuristics`.
Deques are lists: `push_back` appends, `pop_front` drops the head. -/
def add_bug (heuristics_enabled : Bool) (bug_data : List BugM)
    (heuristics : HeuristicsM) (bug : BugM) : List BugM × HeuristicsM :=
  match bug.bug_type with
  | .jumpi dest =>
    if heuristics_enabled then
      let cov := heuristics.coverage ++ [dest]
      let cov := if 256 < cov.length then cov.tail else cov
      (bug_data, { heuristics with coverage := cov })
    else (bug_data, heuristics)
  | .sload _ =>
    let bug_data := if 256 < bug_data.length then bug_data.tail else bug_data
    (bug_data ++ [bug], heuristics)
  | .sstore _ _ =>
    let bug_data := if 256 < bug_data.length then bug_data.tail else bug_data
    (bug_data ++ [bug], heuristics)
  | .unclassified _ => (bug_data ++ [bug], heuristics)

/-! ## Bug inspector: record_seen_address (bug_inspector.rs lines 52-77) -/

/-- Models `Iterator::position(|a| *a == address)` on the seen-address list. -/
def position (addr : Nat) : List Nat → Option Nat
  | [] => none
  | a :: rest => if a = addr then some 0 else (position addr rest).map (· + 1)

/-- `BugInspector::record_seen_address`: returns the index of `addr` in the
seen-address list, extending the list as the source does.
`target_only` is `instrument_config.record_branch_for_target_only`,
`target` is `instrument_config.target_address`.  The result index is an
`Int` because the source returns `isize`. -/
def record_seen_address (target_only : Bool) (target : Nat)
    (seen : List Nat) (addr : Nat) : Int × List Nat :=
  let seen1 := if target_only && seen.isEmpty then seen ++ [target] else seen
  if target_only && decide (target = addr) then (0, seen1)
  else
    match position addr seen1 with
    | some i => ((i : Int), seen1)
    | none => ((seen1.length : Int) + 1 - 1, seen1 ++ [addr])

/-! ## Log inspector (src/logs.rs) -/

/-- revm `CallScheme` variants matched by `LogInspector::call`. -/
inductive CallSchemeM where
  | call
  | callCode
  | delegateCall
  | staticCall
  deriving DecidableEq

/-- revm `CallValue`: `Transfer` carries the transferred value, `Apparent`
is the delegate-call apparent value. -/
inductive CallValueM where
  | transfer (v : Nat)
  | apparent (v : Nat)
  deriving DecidableEq

/-- The fields of revm `CallInputs` read by `LogInspector::call`. -/
structure CallInputsM where
  scheme : CallSchemeM
  caller : Nat
  target_address : Nat
  bytecode_address : Nat
  input : List Nat
  value : CallValueM
  deriving DecidableEq

/-- `CallTrace` (logs.rs lines 19-30).  `from` is a Lean keyword, so the
field is called `from_a`. -/
structure CallTraceM where
  from_a : Nat
  to_a : Nat
  value : Nat
  input : List Nat
  depth : Nat
  return_data : Option (List Nat)
  is_static : Bool
  status : Option Nat
  id : Nat
  deriving DecidableEq

/-- An EVM event collected by the log hook (logs.rs lines 32-39). -/
structure LogM where
  id : Nat
  depth : Nat
  address : Nat
  topics : List Nat
  data : List Nat
  deriving DecidableEq

/-- `LogInspector` state (logs.rs lines 42-50). -/
structure LogInspectorM where
  trace_enabled : Bool
  traces : List CallTraceM
  logs : List LogM
  deriving DecidableEq

/-- The thread-local cells `COUNTER` and `CALL_DEPTH`, passed explicitly. -/
structure ThreadCells where
  counter : Nat
  call_depth : Nat
  deriving DecidableEq

/-- The fields of revm `CallOutcome` read by `LogInspector::call_end`:
the output bytes and the interpreter result code. -/
structure CallOutcomeM where
  output : List Nat
  result : Nat
  deriving DecidableEq

/-- `LogInspector::call` (logs.rs lines 74-117): when tracing is enabled,
push a new trace (drawing `id` from `COUNTER` and `depth` from
`CALL_DEPTH`) and increment both counters; otherwise do nothing. -/
def log_inspector_call (insp : LogInspectorM) (cells : ThreadCells)
    (inputs : CallInputsM) : LogInspectorM × ThreadCells :=
  if insp.trace_enabled then
    let is_static := !(inputs.scheme = CallSchemeM.call ∨ inputs.scheme = CallSchemeM.callCode : Bool)
    let ft : Nat × Nat :=
      match inputs.scheme with
      | .delegateCall => (inputs.target_address, inputs.bytecode_address)
      | .callCode => (inputs.target_address, inputs.bytecode_address)
      | _ => (inputs.caller, inputs.target_address)
    let id := cells.counter
    let depth := cells.call_depth
    let value :=
      match inputs.value with
      | .transfer v => v
      | _ => 0
    let trace : CallTraceM :=
      { from_a := ft.1, to_a := ft.2, value := value, input := inputs.input,
        depth := depth, return_data := none, is_static := is_static,
        status := none, id := id }
    ({ insp with traces := insp.traces ++ [trace] },
     { counter := id + 1, call_depth := depth + 1 })
  else (insp, cells)

/-- Models `self.traces.iter_mut().find(|c| c.depth == depth)` followed by
the two field assignments: updates the FIRST trace in list order whose
depth equals `d`; `none` when no trace matches (the source panics via
`expect`). -/
def fill_first_at_depth (d : Nat) (out : List Nat) (st : Nat) :
    List CallTraceM → Option (List CallTraceM)
  | [] => none
  | t :: ts =>
    if t.depth = d then some ({ t with return_data := some out, status := some st } :: ts)
    else (fill_first_at_depth d out st ts).map (t :: ·)

/-- `LogInspector::call_end` (logs.rs lines 119-140): when tracing is
enabled, decrement `CALL_DEPTH`, locate a trace at the new depth with
`Iterator::find` and fill in its `return_data` and `status`.  Returns
`none` for the `expect` panic when no trace matches. -/
def log_inspector_call_end (insp : LogInspectorM) (cells : ThreadCells)
    (outcome : CallOutcomeM) : Option (LogInspectorM × ThreadCells) :=
  if insp.trace_enabled then
    let depth := cells.call_depth - 1
    match fill_first_at_depth depth outcome.output outcome.result insp.traces with
    | none => none
    | some ts => some ({ insp with traces := ts }, { cells with call_depth := depth })
  else some (insp, cells)

/-- The `CALL_DEPTH.get_or_default().set(0)` at the start of
`TinyEVM::deploy_helper` (lib.rs line 264). -/
def deploy_helper_reset_depth (cells : ThreadCells) : ThreadCells :=
  { cells with call_depth := 0 }

/-- The `CALL_DEPTH.get_or_default().set(0)` at the start of
`TinyEVM::contract_call_helper` (lib.rs line 376). -/
def contract_call_helper_reset_depth (cells : ThreadCells) : ThreadCells :=
  { cells with call_depth := 0 }

/-! ## Fork DB (src/fork_db.rs) -/

/-- revm `KECCAK_EMPTY`: keccak256 of the empty byte string. -/
def KECCAK_EMPTY_HASH : Nat :=
  0xc5d2460186f7233c927e7db2dcc703c0e500b653ca82273b7bfad8045d85a470

/-- revm `AccountInfo` (fields used by tevm). -/
structure AccountInfoM where
  balance : Nat
  nonce : Nat
  code_hash : Nat
  code : Option (List Nat)
  deriving DecidableEq

/-- revm `AccountInfo::default()`: zero balance and nonce, `KECCAK_EMPTY`
code hash, empty bytecode. -/
def AccountInfoM.default : AccountInfoM :=
  { balance := 0, nonce := 0, code_hash := KECCAK_EMPTY_HASH, code := some [] }

/-- revm `AccountState` for `DbAccount`. -/
inductive AccountStateM where
  | notExisting
  | touched
  | storageCleared
  | noneState
  deriving DecidableEq

/-- revm `DbAccount`: per-address entry of the fork DB. -/
structure DbAccountM where
  info : AccountInfoM
  account_state : AccountStateM
  storage : List (Nat × Nat)
  deriving DecidableEq

/-- revm `DbAccount::default()`. -/
def DbAccountM.default : DbAccountM :=
  { info := AccountInfoM.default, account_state := .noneState, storage := [] }

/-- A storage slot of a change-set account: original and present value. -/
structure StorageSlotM where
  original_value : Nat
  present_value : Nat
  deriving DecidableEq

/-- A change-set account handed to `DatabaseCommit::commit`: account info,
storage slots, and the status flags consulted by `commit`. -/
structure AccountM where
  info : AccountInfoM
  storage : List (Nat × StorageSlotM)
  touched : Bool
  selfdestructed : Bool
  created : Bool
  deriving DecidableEq

/-- Insert or overwrite a key in an association list (hash-map insert). -/
def upsert (l : List (Nat × Nat)) (k v : Nat) : List (Nat × Nat) :=
  if l.any (fun p => p.1 = k) then
    l.map (fun p => if p.1 = k then (k, v) else p)
  else l ++ [(k, v)]

/-- Association-list lookup (hash-map get / occupied-entry check). -/
def lookupA : List (Nat × Nat) → Nat → Option Nat
  | [], _ => none
  | (k, v) :: rest, x => if x = k then some v else lookupA rest x

/-- Set-like insert into a list (hash-set insert). -/
def insert_set (l : List Nat) (x : Nat) : List Nat :=
  if x ∈ l then l else x :: l

/-- The `ForkDB` state: `accounts` and `contracts` as functional maps,
`block_hashes` as an association list, plus the forking configuration.
The provider, block id and block cache are abstracted into the oracle
arguments of the operations below. -/
structure ForkDBM where
  accounts : Nat → Option DbAccountM
  contracts : Nat → Option (List Nat)
  block_hashes : List (Nat × Nat)
  fork_enabled : Bool
  remote_addresses : List Nat
  ignored_addresses : List Nat
  max_fork_depth : Nat

/-- `ForkDB::insert_contract` (fork_db.rs lines 201-216): hash non-empty
code into `code_hash` and register it in `contracts` (`or_insert_with`
keeps an existing entry); otherwise reset `code_hash` to `KECCAK_EMPTY`. -/
def insert_contract (keccak : List Nat → Nat) (contracts : Nat → Option (List Nat))
    (info : AccountInfoM) : AccountInfoM × (Nat → Option (List Nat)) :=
  match info.code with
  | some code =>
    if code ≠ [] then
      let h := keccak code
      ({ info with code_hash := h },
       fun x => if x = h then some ((contracts h).getD code) else contracts x)
    else ({ info with code_hash := KECCAK_EMPTY_HASH }, contracts)
  | none => ({ info with code_hash := KECCAK_EMPTY_HASH }, contracts)

/-- `ForkDB::insert_account_info` (fork_db.rs lines 196-199). -/
def insert_account_info (keccak : List Nat → Nat) (db : ForkDBM)
    (address : Nat) (info : AccountInfoM) : ForkDBM :=
  let ic := insert_contract keccak db.contracts info
  let acc := (db.accounts address).getD DbAccountM.default
  { db with contracts := ic.2,
            accounts := fun x => if x = address then some { acc with info := ic.1 } else db.accounts x }

/-- `Database::basic` for `ForkDB` (fork_db.rs lines 221-267).
`call_depth` is the thread-local `CALL_DEPTH` counter, passed explicitly;
`fetch` abstracts the three provider calls, returning
`(nonce, balance, code)`. -/
def ForkDBM.basic (keccak : List Nat → Nat)
    (fetch : Nat → Except Unit (Nat × Nat × List Nat)) (call_depth : Nat)
    (db : ForkDBM) (address : Nat) : Except Unit (Option AccountInfoM × ForkDBM) :=
  match db.accounts address with
  | some acc => .ok (some acc.info, db)
  | none =>
    if !db.fork_enabled then .ok (none, db)
    else if db.max_fork_depth < call_depth then
      .ok (none, { db with ignored_addresses := insert_set db.ignored_addresses address })
    else
      match fetch address with
      | .error e => .error e
      | .ok (nonce, balance, code) =>
        let is_remote := !code.isEmpty || !(balance = 0 : Bool) || !(nonce = 0 : Bool)
        let info : AccountInfoM :=
          { balance := balance, nonce := nonce, code_hash := keccak code, code := some code }
        let db := insert_account_info keccak db address info
        let db := if is_remote then { db with remote_addresses := insert_set db.remote_addresses address } else db
        .ok (some info, db)

/-- Big-endian 32-byte encoding of a `U256`
(`number.to_be_bytes::<{U256::BYTES}>()`). -/
def be_bytes_32 (n : Nat) : List Nat :=
  (List.range 32).map (fun i => n / 256 ^ (31 - i) % 256)

/-- `u64::MAX`. -/
def u64max : Nat := 2 ^ 64 - 1

/-- `Database::block_hash` for `ForkDB` (fork_db.rs lines 317-339).
`keccak` abstracts revm `keccak256`; `get_block_hash` abstracts
`get_fork_block_by_number` (block cache, provider) followed by the
`block.hash.unwrap()` extraction. -/
def ForkDBM.block_hash (keccak : List Nat → Nat)
    (get_block_hash : Nat → Except Unit Nat) (db : ForkDBM)
    (number : Nat) : Except Unit (Nat × ForkDBM) :=
  match lookupA db.block_hashes number with
  | some h => .ok (h, db)
  | none =>
    if !db.fork_enabled then .ok (keccak (be_bytes_32 number), db)
    else if u64max < number then .ok (KECCAK_EMPTY_HASH, db)
    else
      match get_block_hash number with
      | .error e => .error e
      | .ok h => .ok (h, { db with block_hashes := (number, h) :: db.block_hashes })

/-- One iteration of the `commit` loop (fork_db.rs lines 344-383). -/
def commit_one (keccak : List Nat → Nat) (db : ForkDBM)
    (address : Nat) (account : AccountM) : ForkDBM :=
  if !account.touched then db
  else if account.selfdestructed then
    let acc := (db.accounts address).getD DbAccountM.default
    { db with accounts := fun x =>
        if x = address then
          some { acc with storage := [], account_state := .notExisting, info := AccountInfoM.default }
        else db.accounts x }
  else
    let is_newly_created := account.created
    let ic := insert_contract keccak db.contracts account.info
    let acc := (db.accounts address).getD DbAccountM.default
    let acc := { acc with info := ic.1 }
    let acc :=
      if is_newly_created then { acc with storage := [], account_state := .storageCleared }
      else if acc.account_state = .storageCleared then { acc with account_state := .storageCleared }
      else { acc with account_state := .touched }
    let acc := { acc with storage :=
      account.storage.foldl (fun s kv => upsert s kv.1 kv.2.present_value) acc.storage }
    { db with contracts := ic.2,
              accounts := fun x => if x = address then some acc else db.accounts x }

/-- `DatabaseCommit::commit` for `ForkDB` (fork_db.rs lines 343-384):
fold the per-account step over the change set. -/
def ForkDBM.commit (keccak : List Nat → Nat) (db : ForkDBM)
    (changes : List (Nat × AccountM)) : ForkDBM :=
  changes.foldl (fun d kv => commit_one keccak d kv.1 kv.2) db

/-! ## Fork provider (src/fork_provider.rs)

Each read method is embedded over three oracles: the cache read result
(`cache_get`, `Except.error` = miss or failed read), the RPC call result
(`rpc`), and the cache write (`store`).  Values and parse/format steps are
abstracted to `Nat` (the cached path returns the parsed cached value). -/

/-- `ForkProvider::get_transaction_count` (fork_provider.rs lines 49-81):
cache consulted only with a concrete block number; on miss the RPC result
is fetched and the cache write error propagates via `?`. -/
def provider_get_transaction_count (block_number : Option Nat)
    (cache_get : Except Unit Nat) (rpc : Except Unit Nat)
    (store : Nat → Except Unit Unit) : Except Unit Nat :=
  match block_number, cache_get with
  | some _, .ok cached => .ok cached
  | _, _ =>
    match rpc with
    | .error e => .error e
    | .ok v =>
      match block_number with
      | some _ =>
        match store v with
        | .error e => .error e
        | .ok _ => .ok v
      | none => .ok v

/-- `ForkProvider::get_balance` (fork_provider.rs lines 84-112): same
shape; the cache write error propagates via `?`. -/
def provider_get_balance (block_number : Option Nat)
    (cache_get : Except Unit Nat) (rpc : Except Unit Nat)
    (store : Nat → Except Unit Unit) : Except Unit Nat :=
  match block_number, cache_get with
  | some _, .ok cached => .ok cached
  | _, _ =>
    match rpc with
    | .error e => .error e
    | .ok v =>
      match block_number with
      | some _ =>
        match store v with
        | .error e => .error e
        | .ok _ => .ok v
      | none => .ok v

/-- `ForkProvider::get_code` (fork_provider.rs lines 114-141): same shape;
the cache write error propagates via `?`. -/
def provider_get_code (block_number : Option Nat)
    (cache_get : Except Unit (List Nat)) (rpc : Except Unit (List Nat))
    (store : List Nat → Except Unit Unit) : Except Unit (List Nat) :=
  match block_number, cache_get with
  | some _, .ok cached => .ok cached
  | _, _ =>
    match rpc with
    | .error e => .error e
    | .ok v =>
      match block_number with
      | some _ =>
        match store v with
        | .error e => .error e
        | .ok _ => .ok v
      | none => .ok v

/-- `ForkProvider::get_storage_at` (fork_provider.rs lines 166-205): same
shape; the cache write error propagates via `?`. -/
def provider_get_storage_at (block_number : Option Nat)
    (cache_get : Except Unit Nat) (rpc : Except Unit Nat)
    (store : Nat → Except Unit Unit) : Except Unit Nat :=
  match block_number, cache_get with
  | some _, .ok cached => .ok cached
  | _, _ =>
    match rpc with
    | .error e => .error e
    | .ok v =>
      match block_number with
      | some _ =>
        match store v with
        | .error e => .error e
        | .ok _ => .ok v
      | none => .ok v

/-- `ForkProvider::get_block` (fork_provider.rs lines 143-164): the block
number is mandatory, the RPC may return no block (`Option`), and the cache
write result is DISCARDED (`let _ = self.cache.store(...)`). -/
def provider_get_block (cache_get : Except Unit Nat)
    (rpc : Except Unit (Option Nat)) (store : Option Nat → Except Unit Unit) :
    Except Unit (Option Nat) :=
  match cache_get with
  | .ok cached => .ok (some cached)
  | .error _ =>
    match rpc with
    | .error e => .error e
    | .ok b =>
      let _ := store b
      .ok b

/-! ## common.rs: bigint_to_ruint_u256 -/

/-- Little-endian base-256 digits of a natural number, as produced by a
bignum magnitude (no leading zero digit; empty for zero). -/
def le_bytes : Nat → List Nat
  | 0 => []
  | n + 1 => ((n + 1) % 256) :: le_bytes ((n + 1) / 256)
decreasing_by exact Nat.div_lt_self (Nat.succ_pos n) (by omega)

/-- `num_bigint` magnitude `to_bytes_be()`: minimal big-endian byte string,
with a single zero byte for zero. -/
def to_bytes_be (n : Nat) : List Nat :=
  if n = 0 then [0] else (le_bytes n).reverse

/-- `U256::from_be_slice` on a 32-byte slice: big-endian byte fold. -/
def from_be_slice (l : List Nat) : Nat :=
  l.foldl (fun acc b => acc * 256 + b) 0

/-- Result of running a Rust function that may panic. -/
inductive PanicOr (α : Type) where
  | panicked
  | ok (val : α)
  deriving DecidableEq

/-- `common::bigint_to_ruint_u256` (common.rs lines 54-61): take the sign
and minimal big-endian magnitude bytes, reject negative inputs with an
error, then evaluate `&bytes[..32]` — which panics whenever the magnitude
is shorter than 32 bytes — and build the `U256` from that slice. -/
def bigint_to_ruint_u256 (b : Int) : PanicOr (Except Unit Nat) :=
  let bytes := to_bytes_be b.natAbs
  if b < 0 then .ok (.error ())
  else if bytes.length < 32 then .panicked
  else .ok (.ok (from_be_slice (bytes.take 32)))

/-! # Theorems -/

/-- Wrapping subtraction coincides with truncated subtraction when no
underflow occurs. -/
theorem wrapping_sub_of_le {x y : Nat} (hyx : y ≤ x) (hx : x < W256) :
    wrapping_sub x y = x - y := by
  unfold wrapping_sub
  have h1 : x + W256 - y = W256 + (x - y) := by omega
  rw [h1, Nat.add_mod_left, Nat.mod_eq_of_lt (by omega)]

/-- C9: after the post-step of an `LT` opcode with captured stack inputs
`a` and `b`, `heuristics.distance` equals `(a−b)+1` if `a ≥ b` and `(b−a)`
otherwise; after a `GT` opcode it equals `(a−b)` if `a ≥ b` and `(b−a)+1`
otherwise, with the increment saturating at `U256::MAX`. -/
theorem lt_gt_distance_formulas (h : HeuristicsM) (a b : Nat)
    (ha : a < W256) (hb : b < W256) :
    (step_end_lt h a b).distance
      = (if b ≤ a then min (a - b + 1) U256max else b - a)
    ∧ (step_end_gt h a b).distance
      = (if b ≤ a then a - b else min (b - a + 1) U256max) := by
  constructor
  · show lt_distance a b = _
    unfold lt_distance saturating_add
    by_cases hba : b ≤ a
    · rw [if_pos hba, if_pos hba, wrapping_sub_of_le hba ha]
    · rw [if_neg hba, if_neg hba, wrapping_sub_of_le (le_of_not_le hba) hb]
  · show gt_distance a b = _
    unfold gt_distance saturating_add
    by_cases hba : b ≤ a
    · rw [if_pos hba, if_pos hba, wrapping_sub_of_le hba ha]
    · rw [if_neg hba, if_neg hba, wrapping_sub_of_le (le_of_not_le hba) hb]

/-- C9 witness: the theorem evaluated at `a = 5`, `b = 3`. -/
theorem lt_gt_distance_formulas_witness :
    (step_end_lt ⟨[], 0⟩ 5 3).distance = 3 ∧ (step_end_gt ⟨[], 0⟩ 5 3).distance = 2 := by
  have h := lt_gt_distance_formulas ⟨[], 0⟩ 5 3 (by decide) (by decide)
  refine ⟨?_, ?_⟩
  · rw [h.1]; decide
  · rw [h.2]; decide

/-- C10: `add_bug` preserves the bound `heuristics.coverage.len() ≤ 256`:
the only case that appends to the coverage deque (`Jumpi` with heuristics
enabled) pops the front whenever the length exceeds 256. -/
theorem coverage_bound_preserved (en : Bool) (bug_data : List BugM)
    (h : HeuristicsM) (bug : BugM) (hlen : h.coverage.length ≤ 256) :
    ((add_bug en bug_data h bug).2).coverage.length ≤ 256 := by
  unfold add_bug
  cases hbt : bug.bug_type with
  | jumpi dest =>
    by_cases he : en = true
    · simp only [he, if_true]
      split
      · next hc =>
        simp only [List.length_tail, List.length_append, List.length_cons,
          List.length_nil] at hc ⊢
        omega
      · next hc =>
        simp only [List.length_append, List.length_cons, List.length_nil] at hc ⊢
        omega
    · simp only [Bool.not_eq_true] at he
      simp only [he, Bool.false_eq_true, if_false]
      exact hlen
  | sload key => simpa using hlen
  | sstore key value => simpa using hlen
  | unclassified tag => simpa using hlen

/-- C10 witness: the theorem evaluated on a full (length-256) coverage
deque and a `Jumpi` bug. -/
theorem coverage_bound_preserved_witness :
    ((add_bug true [] ⟨List.replicate 256 0, 0⟩ ⟨.jumpi 5, 0x57, 3, 0⟩).2).coverage.length ≤ 256 :=
  coverage_bound_preserved true [] ⟨List.replicate 256 0, 0⟩ ⟨.jumpi 5, 0x57, 3, 0⟩
    (by show (List.replicate 256 0).length ≤ 256
        rw [List.length_replicate])

/-- C1 (evaluation at the failing input): with the peephole pattern
triggered, the JUMPI handler's threshold is `U256::MAX - 2^31` (bit 31
cleared, not bit 255), so for the condition value `2^255 + 1` — which is
above `U256::MAX / 2` — the stored distance is the condition itself,
not the claimed `U256::MAX - cond + 1 = 2^255 - 1`. -/
theorem peephole_threshold_eval :
    possibly_if_equal 15 10 0 = true
    ∧ peephole_distance (2 ^ 255 + 1) = 2 ^ 255 + 1
    ∧ U256max / 2 < 2 ^ 255 + 1
    ∧ U256max - (2 ^ 255 + 1) + 1 = 2 ^ 255 - 1
    ∧ 2 ^ 255 + 1 ≠ 2 ^ 255 - 1 := by
  refine ⟨rfl, ?_, by decide, by decide, by decide⟩
  unfold peephole_distance peephole_half U256max W256
  norm_num

/-- C6: for a fork DB with forking disabled and no cached entry for block
number `n ≤ u64::MAX`, `block_hash(n)` returns `keccak256` of `n` encoded
as 32 big-endian bytes, independently of the provider oracle (hence
deterministic and stable across runs), and leaves the DB unchanged. -/
theorem block_hash_no_fork (keccak : List Nat → Nat)
    (gbh : Nat → Except Unit Nat) (db : ForkDBM) (n : Nat)
    (hf : db.fork_enabled = false) (hc : lookupA db.block_hashes n = none)
    (hn : n ≤ u64max) :
    ForkDBM.block_hash keccak gbh db n = .ok (keccak (be_bytes_32 n), db) := by
  unfold ForkDBM.block_hash
  rw [hc]
  simp [hf]

/-- C6 witness: the theorem evaluated on an empty non-forking DB at block
number 7, with concrete oracles. -/
theorem block_hash_no_fork_witness :
    ForkDBM.block_hash (fun l => l.length) (fun _ => .error ())
      ⟨fun _ => none, fun _ => none, [], false, [], [], 0⟩ 7
    = .ok ((fun l : List Nat => l.length) (be_bytes_32 7),
           ⟨fun _ => none, fun _ => none, [], false, [], [], 0⟩) :=
  block_hash_no_fork (fun l => l.length) (fun _ => .error ())
    ⟨fun _ => none, fun _ => none, [], false, [], [], 0⟩ 7 rfl rfl (by decide)

/-- C2 counterexample: `get_balance` with a cache miss, a successful RPC
fetch of the value 7, and a failing cache store returns an error instead
of the fetched value — the cache write failure aborts the call. -/
theorem get_balance_store_failure_aborts :
    provider_get_balance (some 0) (.error ()) (.ok 7) (fun _ => .error ()) = .error ()
    ∧ (Except.error () : Except Unit Nat) ≠ .ok 7 :=
  ⟨rfl, fun h => Except.noConfusion h⟩

/-- C2 (amended): only `get_block` treats the cache write as best-effort
(a store failure is discarded and the fetched block is still returned);
`get_transaction_count`, `get_balance`, `get_code` and `get_storage_at`
propagate a cache-store failure as an error even though the RPC fetch
succeeded. -/
theorem fork_provider_cache_store_propagation (n v : Nat) (code : List Nat)
    (b : Option Nat) (storeV : Nat → Except Unit Unit)
    (storeC : List Nat → Except Unit Unit) (storeB : Option Nat → Except Unit Unit)
    (hv : storeV v = .error ()) (hcode : storeC code = .error ()) :
    provider_get_block (.error ()) (.ok b) storeB = .ok b
    ∧ provider_get_transaction_count (some n) (.error ()) (.ok v) storeV = .error ()
    ∧ provider_get_balance (some n) (.error ()) (.ok v) storeV = .error ()
    ∧ provider_get_code (some n) (.error ()) (.ok code) storeC = .error ()
    ∧ provider_get_storage_at (some n) (.error ()) (.ok v) storeV = .error () := by
  refine ⟨rfl, ?_, ?_, ?_, ?_⟩
  · show (match storeV v with
      | Except.error e => (Except.error e : Except Unit Nat)
      | Except.ok _ => Except.ok v) = Except.error ()
    rw [hv]
  · show (match storeV v with
      | Except.error e => (Except.error e : Except Unit Nat)
      | Except.ok _ => Except.ok v) = Except.error ()
    rw [hv]
  · show (match storeC code with
      | Except.error e => (Except.error e : Except Unit (List Nat))
      | Except.ok _ => Except.ok code) = Except.error ()
    rw [hcode]
  · show (match storeV v with
      | Except.error e => (Except.error e : Except Unit Nat)
      | Except.ok _ => Except.ok v) = Except.error ()
    rw [hv]

/-- C2 witness: the amended theorem evaluated at concrete values. -/
theorem fork_provider_cache_store_propagation_witness :
    provider_get_block (.error ()) (.ok (some 3)) (fun _ => .error ()) = .ok (some 3)
    ∧ provider_get_transaction_count (some 0) (.error ()) (.ok 7) (fun _ => .error ()) = .error ()
    ∧ provider_get_balance (some 0) (.error ()) (.ok 7) (fun _ => .error ()) = .error ()
    ∧ provider_get_code (some 0) (.error ()) (.ok [1, 2]) (fun _ => .error ()) = .error ()
    ∧ provider_get_storage_at (some 0) (.error ()) (.ok 7) (fun _ => .error ()) = .error () :=
  fork_provider_cache_store_propagation 0 7 [1, 2] (some 3)
    (fun _ => .error ()) (fun _ => .error ()) (fun _ => .error ()) rfl rfl

/-- C4 (evaluation at the failing input): with call tracing enabled and
three traces — the root at depth 0, a completed depth-1 sibling, and the
just-ended depth-1 call — `call_end` decrements the depth from 2 to 1 and
then fills the FIRST trace at depth 1 (overwriting the completed
sibling's `return_data`/`status`), leaving the most recent depth-1 trace
untouched. -/
theorem call_end_fills_first_trace_eval :
    log_inspector_call_end
      ⟨true,
       [⟨10, 20, 0, [], 0, none, false, none, 0⟩,
        ⟨20, 30, 0, [], 1, some [1], false, some 0, 1⟩,
        ⟨20, 40, 0, [], 1, none, false, none, 2⟩], []⟩
      ⟨3, 2⟩ ⟨[9], 5⟩
    = some (⟨true,
       [⟨10, 20, 0, [], 0, none, false, none, 0⟩,
        ⟨20, 30, 0, [], 1, some [9], false, some 5, 1⟩,
        ⟨20, 40, 0, [], 1, none, false, none, 2⟩], []⟩, ⟨3, 1⟩) := by
  decide

/-- C3 counterexample: with call tracing disabled, the inspector `call`
hook does NOT increment the thread-scoped depth counter — `CALL_DEPTH`
stays at 5 instead of becoming 6 — so the counter is not incremented on
every invocation of the call hook. -/
theorem call_depth_not_incremented_when_trace_disabled :
    (log_inspector_call ⟨false, [], []⟩ ⟨0, 5⟩
      ⟨.call, 1, 2, 3, [], .transfer 0⟩).2.call_depth ≠ 5 + 1 := by
  decide

/-- C3 (amended): the thread-scoped `CALL_DEPTH` is reset to 0 at the
start of `deploy_helper` and `contract_call_helper`; it is incremented on
every invocation of the inspector `call` hook PROVIDED call tracing is
enabled; and `ForkDB::basic` consults this explicitly-passed counter when
enforcing `max_fork_depth` (returning `None` and recording the address as
ignored whenever the counter exceeds the limit, without ever calling the
provider). -/
theorem call_depth_tracking_amended :
    (∀ cells : ThreadCells,
      (deploy_helper_reset_depth cells).call_depth = 0
      ∧ (contract_call_helper_reset_depth cells).call_depth = 0)
    ∧ (∀ (insp : LogInspectorM) (cells : ThreadCells) (inputs : CallInputsM),
        insp.trace_enabled = true →
        (log_inspector_call insp cells inputs).2.call_depth = cells.call_depth + 1)
    ∧ (∀ (keccak : List Nat → Nat) (fetch : Nat → Except Unit (Nat × Nat × List Nat))
        (call_depth : Nat) (db : ForkDBM) (address : Nat),
        db.accounts address = none → db.fork_enabled = true →
        db.max_fork_depth < call_depth →
        ForkDBM.basic keccak fetch call_depth db address
          = .ok (none, { db with ignored_addresses := insert_set db.ignored_addresses address })) := by
  refine ⟨fun cells => ⟨rfl, rfl⟩, ?_, ?_⟩
  · intro insp cells inputs ht
    unfold log_inspector_call
    rw [ht]
    simp
  · intro keccak fetch call_depth db address hacc hf hd
    unfold ForkDBM.basic
    rw [hacc, hf]
    simp [hd]

/-- C3 witness: the amended theorem evaluated at concrete inputs. -/
theorem call_depth_tracking_amended_witness :
    (deploy_helper_reset_depth ⟨3, 7⟩).call_depth = 0
    ∧ (log_inspector_call ⟨true, [], []⟩ ⟨0, 5⟩
        ⟨.call, 1, 2, 3, [], .transfer 0⟩).2.call_depth = 5 + 1
    ∧ ForkDBM.basic (fun _ => 0) (fun _ => .error ()) 1
        ⟨fun _ => none, fun _ => none, [], true, [], [], 0⟩ 9
      = .ok (none, { (⟨fun _ => none, fun _ => none, [], true, [], [], 0⟩ : ForkDBM) with
          ignored_addresses := insert_set [] 9 }) :=
  ⟨(call_depth_tracking_amended.1 ⟨3, 7⟩).1,
   call_depth_tracking_amended.2.1 ⟨true, [], []⟩ ⟨0, 5⟩ ⟨.call, 1, 2, 3, [], .transfer 0⟩ rfl,
   call_depth_tracking_amended.2.2 (fun _ => 0) (fun _ => .error ()) 1
     ⟨fun _ => none, fun _ => none, [], true, [], [], 0⟩ 9 rfl rfl (by decide)⟩

/-- A number below `256 ^ k` has at most `k` base-256 digits. -/
theorem le_bytes_length_le : ∀ (k n : Nat), n < 256 ^ k → (le_bytes n).length ≤ k := by
  intro k
  induction k with
  | zero =>
    intro n h
    have hn : n = 0 := by simpa using h
    subst hn
    simp [le_bytes]
  | succ k ih =>
    intro n h
    match n with
    | 0 => simp [le_bytes]
    | m + 1 =>
      simp only [le_bytes, List.length_cons]
      have hd : (m + 1) / 256 < 256 ^ k := by
        rw [Nat.div_lt_iff_lt_mul (by norm_num)]
        calc m + 1 < 256 ^ (k + 1) := h
          _ = 256 ^ k * 256 := by rw [pow_succ]
      have := ih _ hd
      omega

/-- A number with at most `k` base-256 digits is below `256 ^ k`. -/
theorem le_bytes_length_lt : ∀ (k n : Nat), (le_bytes n).length ≤ k → n < 256 ^ k := by
  intro k
  induction k with
  | zero =>
    intro n h
    match n with
    | 0 => positivity
    | m + 1 => simp [le_bytes] at h
  | succ k ih =>
    intro n h
    match n with
    | 0 => positivity
    | m + 1 =>
      simp only [le_bytes, List.length_cons] at h
      have hd : (m + 1) / 256 < 256 ^ k := ih _ (by omega)
      have : m + 1 < 256 ^ k * 256 := by
        rw [← Nat.div_lt_iff_lt_mul (by norm_num)]
        exact hd
      rw [pow_succ]
      exact this

/-- The minimal big-endian representation is shorter than 32 bytes exactly
for magnitudes below `256 ^ 31`. -/
theorem to_bytes_be_length_iff (n : Nat) :
    (to_bytes_be n).length < 32 ↔ n < 256 ^ 31 := by
  unfold to_bytes_be
  by_cases h0 : n = 0
  · subst h0
    constructor
    · intro _; positivity
    · intro _; decide
  · rw [if_neg h0, List.length_reverse]
    constructor
    · intro h
      exact le_bytes_length_lt 31 n (by omega)
    · intro h
      have := le_bytes_length_le 31 n h
      omega

/-- C5: `bigint_to_ruint_u256` panics (evaluates `&bytes[..32]` out of
range) on every non-negative `BigInt` whose minimal big-endian byte
representation is shorter than 32 bytes — equivalently, every value below
`2 ^ 248`, zero included — and returns a `U256` only for inputs whose
big-endian representation is at least 32 bytes long. -/
theorem bigint_to_ruint_u256_short_input_panics (b : Int) :
    (0 ≤ b → ((to_bytes_be b.natAbs).length < 32 ↔ b < 2 ^ 248))
    ∧ (0 ≤ b → b < 2 ^ 248 → bigint_to_ruint_u256 b = .panicked)
    ∧ (∀ v : Nat, bigint_to_ruint_u256 b = .ok (.ok v) →
        32 ≤ (to_bytes_be b.natAbs).length) := by
  have h256 : (256 : Nat) ^ 31 = 2 ^ 248 := by norm_num
  have hiff : 0 ≤ b → ((to_bytes_be b.natAbs).length < 32 ↔ b < 2 ^ 248) := by
    intro hb
    rw [to_bytes_be_length_iff, h256]
    conv_rhs => rw [← Int.natAbs_of_nonneg hb]
    exact_mod_cast Iff.rfl
  refine ⟨hiff, ?_, ?_⟩
  · intro hb hlt
    have hlen : (to_bytes_be b.natAbs).length < 32 := (hiff hb).mpr hlt
    simp only [bigint_to_ruint_u256]
    rw [if_neg (by omega), if_pos hlen]
  · intro v h
    by_contra hcon
    push_neg at hcon
    simp only [bigint_to_ruint_u256] at h
    by_cases hb : b < 0
    · rw [if_pos hb] at h
      exact Except.noConfusion (PanicOr.ok.inj h)
    · rw [if_neg hb, if_pos hcon] at h
      exact PanicOr.noConfusion h

/-- C5 witness: the theorem evaluated at `b = 0` (the zero `BigInt`, whose
big-endian representation is the single byte `0x00`). -/
theorem bigint_to_ruint_u256_short_input_panics_witness :
    bigint_to_ruint_u256 0 = .panicked :=
  (bigint_to_ruint_u256_short_input_panics 0).2.1 (by decide) (by positivity)

/-- One commit step never touches the DB entry of a different address. -/
theorem commit_one_accounts_ne (keccak : List Nat → Nat) (db : ForkDBM)
    (address : Nat) (account : AccountM) (addr : Nat) (hne : address ≠ addr) :
    (commit_one keccak db address account).accounts addr = db.accounts addr := by
  unfold commit_one
  split
  · rfl
  · split
    · simp only []
      rw [if_neg (fun h => hne h.symm)]
    · simp only []
      rw [if_neg (fun h => hne h.symm)]

/-- Committing a change set that does not mention an address leaves that
address's DB entry unchanged. -/
theorem commit_accounts_not_mem (keccak : List Nat → Nat) (db : ForkDBM)
    (changes : List (Nat × AccountM)) (addr : Nat)
    (h : addr ∉ changes.map Prod.fst) :
    (ForkDBM.commit keccak db changes).accounts addr = db.accounts addr := by
  induction changes generalizing db with
  | nil => rfl
  | cons kv rest ih =>
    simp only [List.map_cons, List.mem_cons, not_or] at h
    show (ForkDBM.commit keccak (commit_one keccak db kv.1 kv.2) rest).accounts addr = _
    rw [ih _ (by simpa using h.2)]
    exact commit_one_accounts_ne keccak db kv.1 kv.2 addr (fun he => h.1 he.symm)

/-- The commit step for a touched, self-destructed account resets its
entry. -/
theorem commit_one_selfdestructed (keccak : List Nat → Nat) (db : ForkDBM)
    (addr : Nat) (acct : AccountM) (ht : acct.touched = true)
    (hsd : acct.selfdestructed = true) :
    (commit_one keccak db addr acct).accounts addr
      = some ⟨AccountInfoM.default, .notExisting, []⟩ := by
  unfold commit_one
  rw [ht, hsd]
  simp

/-- C7: every touched, self-destructed account of the change set ends up,
after `commit`, with empty storage, default `AccountInfo` and the
`NotExisting` account state. -/
theorem commit_selfdestructed_reset (keccak : List Nat → Nat) (db : ForkDBM)
    (changes : List (Nat × AccountM)) (addr : Nat) (acct : AccountM)
    (hnd : (changes.map Prod.fst).Nodup) (hmem : (addr, acct) ∈ changes)
    (ht : acct.touched = true) (hsd : acct.selfdestructed = true) :
    (ForkDBM.commit keccak db changes).accounts addr
      = some ⟨AccountInfoM.default, .notExisting, []⟩ := by
  induction changes generalizing db with
  | nil => cases hmem
  | cons kv rest ih =>
    show (ForkDBM.commit keccak (commit_one keccak db kv.1 kv.2) rest).accounts addr = _
    simp only [List.map_cons, List.nodup_cons] at hnd
    rcases List.mem_cons.mp hmem with heq | hmem'
    · have hk1 : kv.1 = addr := by rw [← heq]
      have hk2 : kv.2 = acct := by rw [← heq]
      have hnot : addr ∉ rest.map Prod.fst := hk1 ▸ hnd.1
      rw [commit_accounts_not_mem keccak _ rest addr hnot, hk1, hk2]
      exact commit_one_selfdestructed keccak db addr acct ht hsd
    · exact ih (commit_one keccak db kv.1 kv.2) hnd.2 hmem'

/-- C7 witness: the theorem evaluated on a one-element change set over an
empty DB. -/
theorem commit_selfdestructed_reset_witness :
    (ForkDBM.commit (fun _ => 0)
      ⟨fun _ => none, fun _ => none, [], false, [], [], 0⟩
      [(1, ⟨AccountInfoM.default, [], true, true, false⟩)]).accounts 1
    = some ⟨AccountInfoM.default, .notExisting, []⟩ :=
  commit_selfdestructed_reset (fun _ => 0)
    ⟨fun _ => none, fun _ => none, [], false, [], [], 0⟩
    [(1, ⟨AccountInfoM.default, [], true, true, false⟩)] 1
    ⟨AccountInfoM.default, [], true, true, false⟩
    (by simp) (by simp) rfl rfl

/-- `position` returns `none` exactly for absent elements. -/
theorem position_eq_none_iff (addr : Nat) :
    ∀ l : List Nat, position addr l = none ↔ addr ∉ l := by
  intro l
  induction l with
  | nil => simp [position]
  | cons x xs ih =>
    simp only [position, List.mem_cons]
    by_cases hx : x = addr
    · simp [hx]
    · rw [if_neg hx]
      have hmap : (position addr xs).map (· + 1) = none ↔ position addr xs = none := by
        cases position addr xs <;> simp
      rw [hmap, ih]
      constructor
      · intro h hor
        rcases hor with he | hm
        · exact hx he.symm
        · exact h hm
      · intro h hm
        exact h (Or.inr hm)

/-- On a duplicate-free list, `position` recovers the index of any lookup
hit. -/
theorem position_of_getElem (addr : Nat) :
    ∀ (l : List Nat), l.Nodup → ∀ i : Nat, l[i]? = some addr →
      position addr l = some i := by
  intro l
  induction l with
  | nil =>
    intro _ i h
    simp at h
  | cons x xs ih =>
    intro hnd i h
    rcases List.nodup_cons.mp hnd with ⟨hx, hxs⟩
    match i with
    | 0 =>
      have hxa : x = addr := by simpa using h
      simp only [position, if_pos hxa]
    | j + 1 =>
      have hj : xs[j]? = some addr := by simpa using h
      have hmem : addr ∈ xs := List.getElem?_mem hj
      have hxa : ¬(x = addr) := fun he => hx (he ▸ hmem)
      simp only [position, if_neg hxa, ih hxs j hj]
      rfl

/-- Appending a fresh element preserves freedom from duplicates. -/
theorem nodup_append_singleton {l : List Nat} {a : Nat}
    (hn : l.Nodup) (h : a ∉ l) : (l ++ [a]).Nodup := by
  rw [List.nodup_append]
  refine ⟨hn, List.nodup_singleton a, ?_⟩
  intro x hx hxa
  simp only [List.mem_singleton] at hxa
  exact h (hxa ▸ hx)

/-- C8: assuming the list of seen addresses is duplicate-free and (in
target-only mode) headed by the configured target, `record_seen_address`
preserves both invariants, never appends an address already present
(returning its existing index instead), and returns 0 for the target
address in target-only mode. -/
theorem record_seen_address_spec (target_only : Bool) (target addr : Nat)
    (seen : List Nat) (hnd : seen.Nodup)
    (hhead : target_only = true → seen ≠ [] → seen.head? = some target) :
    ((record_seen_address target_only target seen addr).2.Nodup)
    ∧ (target_only = true → (record_seen_address target_only target seen addr).2 ≠ [] →
        (record_seen_address target_only target seen addr).2.head? = some target)
    ∧ (addr ∈ seen → (record_seen_address target_only target seen addr).2 = seen)
    ∧ (∀ i : Nat, seen[i]? = some addr →
        (record_seen_address target_only target seen addr).1 = (i : Int))
    ∧ (target_only = true → addr = target →
        (record_seen_address target_only target seen addr).1 = 0) := by
  cases target_only with
  | false =>
    have hr : record_seen_address false target seen addr
        = (match position addr seen with
           | some i => ((i : Int), seen)
           | none => ((seen.length : Int) + 1 - 1, seen ++ [addr])) := rfl
    cases hpos : position addr seen with
    | some i0 =>
      rw [hr, hpos]
      refine ⟨hnd, fun h => Bool.noConfusion h, fun _ => rfl, ?_,
        fun h => Bool.noConfusion h⟩
      intro i hi
      have hp := position_of_getElem addr seen hnd i hi
      rw [hpos] at hp
      have heqi : i0 = i := by
        simpa using hp
      cases heqi
      rfl
    | none =>
      rw [hr, hpos]
      have hni : addr ∉ seen := (position_eq_none_iff addr seen).mp hpos
      refine ⟨nodup_append_singleton hnd hni, fun h => Bool.noConfusion h,
        fun hmem => absurd hmem hni, ?_, fun h => Bool.noConfusion h⟩
      intro i hi
      exact absurd (List.getElem?_mem hi) hni
  | true =>
    cases seen with
    | nil =>
      by_cases hat : target = addr
      · have hr : record_seen_address true target [] addr = (0, [target]) := by
          unfold record_seen_address
          rw [if_pos (by simp [hat])]
          rfl
        rw [hr]
        refine ⟨List.nodup_singleton target, fun _ _ => rfl, ?_, ?_, fun _ _ => rfl⟩
        · intro hmem
          cases hmem
        · intro i hi
          simp at hi
      · have hpos1 : position addr [target] = none := by
          simp [position, hat]
        have hr : record_seen_address true target [] addr
            = (((1 : Nat) : Int) + 1 - 1, [target] ++ [addr]) := by
          unfold record_seen_address
          rw [if_neg (by simp [hat])]
          show (match position addr [target] with
                | some i => ((i : Int), [target])
                | none => ((([target] : List Nat).length : Int) + 1 - 1,
                    ([target] : List Nat) ++ [addr])) = _
          rw [hpos1]
          rfl
        rw [hr]
        refine ⟨?_, fun _ _ => rfl, ?_, ?_, ?_⟩
        · exact nodup_append_singleton (List.nodup_singleton target)
            (by simp; exact fun h => hat h.symm)
        · intro hmem
          cases hmem
        · intro i hi
          simp at hi
        · intro _ ha
          exact absurd ha.symm hat
    | cons s rest =>
      have hs : s = target := by
        have := hhead rfl (by simp)
        simpa using this
      by_cases hat : target = addr
      · have hr : record_seen_address true target (s :: rest) addr = (0, s :: rest) := by
          unfold record_seen_address
          rw [if_pos (by simp [hat])]
          rfl
        rw [hr]
        refine ⟨hnd, fun _ _ => by simp [hs], fun _ => rfl, ?_, fun _ _ => rfl⟩
        intro i hi
        have hpos0 : position addr (s :: rest) = some 0 := by
          simp only [position, if_pos (hs.trans hat)]
        have hp := position_of_getElem addr (s :: rest) hnd i hi
        rw [hpos0] at hp
        have heqi : 0 = i := by
          simpa using hp
        cases heqi
        rfl
      · have hr1 : record_seen_address true target (s :: rest) addr
            = (match position addr (s :: rest) with
               | some i => ((i : Int), s :: rest)
               | none => (((s :: rest).length : Int) + 1 - 1, (s :: rest) ++ [addr])) := by
          unfold record_seen_address
          rw [if_neg (by simp [hat])]
          rfl
        cases hpos : position addr (s :: rest) with
        | some i0 =>
          rw [hr1, hpos]
          refine ⟨hnd, fun _ _ => by simp [hs], fun _ => rfl, ?_,
            fun _ ha => absurd ha.symm hat⟩
          intro i hi
          have hp := position_of_getElem addr (s :: rest) hnd i hi
          rw [hpos] at hp
          have heqi : i0 = i := by
            simpa using hp
          cases heqi
          rfl
        | none =>
          rw [hr1, hpos]
          have hni : addr ∉ s :: rest := (position_eq_none_iff addr (s :: rest)).mp hpos
          refine ⟨nodup_append_singleton hnd hni, ?_, fun hmem => absurd hmem hni, ?_,
            fun _ ha => absurd ha.symm hat⟩
          · intro _ _
            simp [hs]
          · intro i hi
            exact absurd (List.getElem?_mem hi) hni

/-- C8 witness: the theorem evaluated in target-only mode on the list
`[7, 5]` (target 7) with the argument address 5, which is present at
index 1. -/
theorem record_seen_address_spec_witness :
    ((record_seen_address true 7 [7, 5] 5).2.Nodup)
    ∧ ((record_seen_address true 7 [7, 5] 5).2 = [7, 5])
    ∧ ((record_seen_address true 7 [7, 5] 5).1 = (1 : Int)) := by
  have h := record_seen_address_spec true 7 5 [7, 5] (by decide)
    (fun _ _ => rfl)
  exact ⟨h.1, h.2.2.1 (by decide), h.2.2.2.1 1 rfl⟩

end TEVM
